import Mathlib

/-!
Shallow embedding of the ARB comparison tool (src/app.py).

The program compares two localization mappings (reference and target) and
reports missing/extra keys, empty translations, identical translations and
per-key parameter/text issues.  We model Python dictionaries as association
lists of keys to JSON-like values, Python strings as Lean `String`, and each
helper function of the source as a Lean function with the same name.
-/

/-- A JSON-like value stored under a key of an ARB file.  Only string values
participate in the comparison; the other constructors model the non-string
JSON values that the code skips. -/
inductive ArbValue where
  | str (s : String)
  | num (n : Int)
  | boolean (b : Bool)
  | null
deriving DecidableEq

/-- A parsed ARB file: an ordered mapping from keys to values, as a Python
dict is. -/
abbrev ArbData := List (String × ArbValue)

/-- True exactly on the string values, embedding Python isinstance of str. -/
def ArbValue.isStr : ArbValue → Bool
  | .str _ => true
  | _ => false

/-- Embeds Python s.startswith(pre). -/
def strStartsWith (s pre : String) : Bool := pre.data.isPrefixOf s.data

/-- Embeds Python s.endswith(suf). -/
def strEndsWith (s suf : String) : Bool := suf.data.isSuffixOf s.data

/-- Embeds Python s.strip(): remove whitespace from both ends. -/
def pyStrip (s : String) : String :=
  String.mk ((s.data.dropWhile Char.isWhitespace).rdropWhile Char.isWhitespace)

/-- Embeds Python s.count for a single-character argument. -/
def countChar (s : String) (c : Char) : Nat := s.data.count c

/-- Embeds Python sub in s (substring containment) on explicit char lists. -/
def containsSubstrAux (sub : List Char) : List Char → Bool
  | [] => sub.isEmpty
  | c :: rest => sub.isPrefixOf (c :: rest) || containsSubstrAux sub rest

/-- Embeds Python sub in s for strings. -/
def containsSubstr (s sub : String) : Bool := containsSubstrAux sub.data s.data

/-- The ordered language name to code table of the source (language_map). -/
def language_map : List (String × String) :=
  [("dutch", "nl"), ("german", "de"), ("italian", "it"), ("japanese", "ja"),
   ("korean", "ko"), ("polish", "pl"), ("portuguese", "pt"), ("russian", "ru"),
   ("spanish", "es"), ("turkish", "tr"), ("french", "fr"), ("fr", "fr"),
   ("english", "en")]

/-- The for-loop of detect_language_code: first entry whose name occurs in
the lower-cased file name wins. -/
def lookupLang (lower_name : String) : List (String × String) → Option String
  | [] => none
  | (lang, code) :: rest =>
    if containsSubstr lower_name lang then some code
    else lookupLang lower_name rest

/-- Embeds Python file_name.lower(): lower-case every character. -/
def strToLower (s : String) : String := String.mk (s.data.map Char.toLower)

/-- Embeds detect_language_code of the source. -/
def detect_language_code (file_name : String) : Option String :=
  lookupLang (strToLower file_name) language_map

/-- The left brace character. -/
def lbrace : Char := Char.ofNat 123

/-- The right brace character. -/
def rbrace : Char := Char.ofNat 125

/-- A regex word character, ASCII letters, digits and underscore. -/
def isWordChar (c : Char) : Bool := c.isAlphanum || c == '_'

/-- Scanner for the regex of extract_params: finds every occurrence of a
left brace, one or more word characters and a right brace, returning the
captured identifiers in order.  Because a match never contains a further
left brace after its first character, restarting one character after each
left brace yields exactly the non-overlapping matches of re.findall. -/
def findParams : List Char → List String
  | [] => []
  | c :: rest =>
    let tail := findParams rest
    if c = lbrace then
      match rest.dropWhile isWordChar with
      | r0 :: _ =>
        if r0 = rbrace ∧ rest.takeWhile isWordChar ≠ [] then
          String.mk (rest.takeWhile isWordChar) :: tail
        else tail
      | [] => tail
    else tail

/-- Embeds extract_params of the source: the set of placeholder names, as a
duplicate-free list in first-occurrence order. -/
def extract_params (text : String) : List String := (findParams text.data).dedup

/-- Embeds check_text_issues of the source, emitting issue codes in the
source's order. -/
def check_text_issues (source target lang_code : String) : List String :=
  (if strStartsWith source " " && !(strStartsWith target " ")
    then ["missing_start_space"] else []) ++
  (if strEndsWith source " " && !(strEndsWith target " ")
    then ["missing_end_space"] else []) ++
  (if strStartsWith source "\n" && !(strStartsWith target "\n")
    then ["missing_start_line_break"] else []) ++
  (if strEndsWith source "\n" && !(strEndsWith target "\n")
    then ["missing_end_line_break"] else []) ++
  (if countChar source '\n' ≠ countChar target '\n'
    then ["wrong_line_break_count"] else []) ++
  (if lang_code ≠ "ja" then
    (if strEndsWith source "." && !(strEndsWith target ".")
      then ["missing_end_dot"]
     else if !(strEndsWith source ".") && strEndsWith target "."
      then ["extra_end_dot"] else [])
   else [])

/-- One record of the parameterIssues list of the report. -/
structure ParamIssue where
  key : String
  reference : String
  target : String
  missingParams : List String
  extraParams : List String
  textIssues : List String
deriving DecidableEq

/-- The report returned by compare_arb_files. -/
structure ComparisonReport where
  langCode : String
  missingKeys : List String
  extraKeys : List String
  emptyTranslations : List String
  identicalTranslations : List String
  parameterIssues : List ParamIssue
deriving DecidableEq

/-- The list comprehension building missing_params and extra_params: members
of ps that are not members of qs, in order. -/
def paramDiff (ps qs : List String) : List String :=
  ps.filter fun p => decide (p ∉ qs)

/-- The conditional append of an issue record in the loop body: the record is
produced exactly when one of its three issue lists is non-empty.  The texts
passed here are the already stripped values. -/
def mkIssue (key ref_val tgt_val lang_code : String) : List ParamIssue :=
  let missing_params := paramDiff (extract_params ref_val) (extract_params tgt_val)
  let extra_params := paramDiff (extract_params tgt_val) (extract_params ref_val)
  let text_issues := check_text_issues ref_val tgt_val lang_code
  if missing_params ≠ [] ∨ extra_params ≠ [] ∨ text_issues ≠ [] then
    [⟨key, ref_val, tgt_val, missing_params, extra_params, text_issues⟩]
  else []

/-- The body of the per-key loop of compare_arb_files: the contribution of a
single reference key to (empty translations, identical translations,
parameter issues).  A key absent from the target keys, or holding a
non-string value on either side, contributes nothing. -/
def compareKey (reference_data target_data : ArbData) (tgt_keys : List String)
    (lang_code key : String) : List String × List String × List ParamIssue :=
  if key ∉ tgt_keys then ([], [], [])
  else
    match reference_data.lookup key, target_data.lookup key with
    | some (ArbValue.str rv0), some (ArbValue.str tv0) =>
      (if pyStrip tv0 = "" then [key] else [],
       if pyStrip tv0 ≠ "" ∧ pyStrip rv0 = pyStrip tv0 then [key] else [],
       mkIssue key (pyStrip rv0) (pyStrip tv0) lang_code)
    | _, _ => ([], [], [])

/-- The per-key loop of compare_arb_files, iterating the reference keys and
appending each key's contribution in iteration order. -/
def compareLoop (reference_data target_data : ArbData) (tgt_keys : List String)
    (lang_code : String) : List String → List String × List String × List ParamIssue
  | [] => ([], [], [])
  | key :: ks =>
    let here := compareKey reference_data target_data tgt_keys lang_code key
    let rest := compareLoop reference_data target_data tgt_keys lang_code ks
    (here.1 ++ rest.1, here.2.1 ++ rest.2.1, here.2.2 ++ rest.2.2)

/-- The comparable key list of a mapping: its keys in order, without the
at-prefixed metadata keys. -/
def filteredKeys (data : ArbData) : List String :=
  (data.map Prod.fst).filter fun k => !(strStartsWith k "@")

/-- The language code used by compare_arb_files: the detected code, or the
sentinel when detection fails. -/
def langCodeOf (target_file_name : String) : String :=
  (detect_language_code target_file_name).getD "unknown"

/-- Embeds compare_arb_files of the source. -/
def compare_arb_files (reference_data target_data : ArbData)
    (target_file_name : String) : ComparisonReport :=
  { langCode := langCodeOf target_file_name
    missingKeys := (filteredKeys reference_data).filter fun k =>
      decide (k ∉ filteredKeys target_data)
    extraKeys := (filteredKeys target_data).filter fun k =>
      decide (k ∉ filteredKeys reference_data)
    emptyTranslations := (compareLoop reference_data target_data
      (filteredKeys target_data) (langCodeOf target_file_name)
      (filteredKeys reference_data)).1
    identicalTranslations := (compareLoop reference_data target_data
      (filteredKeys target_data) (langCodeOf target_file_name)
      (filteredKeys reference_data)).2.1
    parameterIssues := (compareLoop reference_data target_data
      (filteredKeys target_data) (langCodeOf target_file_name)
      (filteredKeys reference_data)).2.2 }

/-! Lemmas about stripping: a stripped string neither starts nor ends with a
whitespace character. -/

theorem head_dropWhile_whitespace :
    ∀ (l : List Char) (a : Char) (r : List Char),
      l.dropWhile Char.isWhitespace = a :: r → a.isWhitespace = false := by
  intro l
  induction l with
  | nil => intro a r h; exact absurd h (by simp)
  | cons x xs ih =>
    intro a r h
    rw [List.dropWhile_cons] at h
    by_cases hx : x.isWhitespace = true
    · rw [if_pos hx] at h
      exact ih a r h
    · rw [if_neg hx] at h
      injection h with h1 h2
      subst h1
      simpa using hx

theorem singleton_isPrefixOf_dropWhile {c : Char} (hc : c.isWhitespace = true)
    (l : List Char) : [c].isPrefixOf (l.dropWhile Char.isWhitespace) = false := by
  cases hA : l.dropWhile Char.isWhitespace with
  | nil => rfl
  | cons a r =>
    have ha := head_dropWhile_whitespace l a r hA
    have hca : (c == a) = false := by
      by_cases h : c = a
      · subst h
        rw [hc] at ha
        exact Bool.noConfusion ha
      · exact beq_eq_false_iff_ne.mpr h
    simp [List.isPrefixOf, hca]

theorem singleton_isPrefixOf_mono {c : Char} {l₁ l₂ : List Char}
    (h : l₁ <+: l₂) (h2 : [c].isPrefixOf l₂ = false) :
    [c].isPrefixOf l₁ = false := by
  cases l₁ with
  | nil => rfl
  | cons a r =>
    obtain ⟨t, rfl⟩ := h
    simp [List.isPrefixOf] at h2 ⊢
    exact h2

theorem strStartsWith_pyStrip_whitespace (s : String) (c : Char)
    (hc : c.isWhitespace = true) :
    strStartsWith (pyStrip s) (String.mk [c]) = false := by
  show [c].isPrefixOf
    ((s.data.dropWhile Char.isWhitespace).rdropWhile Char.isWhitespace) = false
  have hpre := List.rdropWhile_prefix Char.isWhitespace
    (s.data.dropWhile Char.isWhitespace)
  exact singleton_isPrefixOf_mono hpre (singleton_isPrefixOf_dropWhile hc s.data)

theorem strEndsWith_pyStrip_whitespace (s : String) (c : Char)
    (hc : c.isWhitespace = true) :
    strEndsWith (pyStrip s) (String.mk [c]) = false := by
  show ([c].reverse).isPrefixOf
    ((List.rdropWhile Char.isWhitespace
      (s.data.dropWhile Char.isWhitespace)).reverse) = false
  simp only [List.rdropWhile, List.reverse_reverse, List.reverse_cons,
    List.reverse_nil, List.nil_append]
  exact singleton_isPrefixOf_dropWhile hc _

theorem pyStrip_space_start (s : String) : strStartsWith (pyStrip s) " " = false :=
  strStartsWith_pyStrip_whitespace s ' ' (by decide)

theorem pyStrip_space_end (s : String) : strEndsWith (pyStrip s) " " = false :=
  strEndsWith_pyStrip_whitespace s ' ' (by decide)

theorem pyStrip_newline_start (s : String) :
    strStartsWith (pyStrip s) "\n" = false :=
  strStartsWith_pyStrip_whitespace s '\n' (by decide)

theorem pyStrip_newline_end (s : String) : strEndsWith (pyStrip s) "\n" = false :=
  strEndsWith_pyStrip_whitespace s '\n' (by decide)

theorem ws_codes_not_in_check_strip (rv tv lc x : String)
    (hx : x = "missing_start_space" ∨ x = "missing_end_space" ∨
          x = "missing_start_line_break" ∨ x = "missing_end_line_break") :
    x ∉ check_text_issues (pyStrip rv) (pyStrip tv) lc := by
  simp only [check_text_issues, pyStrip_space_start, pyStrip_space_end,
    pyStrip_newline_start, pyStrip_newline_end, Bool.false_and,
    Bool.false_eq_true, if_false, List.nil_append]
  rcases hx with rfl | rfl | rfl | rfl <;> split_ifs <;> simp_all

/-! Membership in the loop's accumulated lists is membership in some key's
contribution. -/

theorem mem_compareLoop_fst (r t : ArbData) (tk : List String) (lc : String) :
    ∀ (ks : List String) (k : String),
      k ∈ (compareLoop r t tk lc ks).1 ↔
        ∃ k0 ∈ ks, k ∈ (compareKey r t tk lc k0).1 := by
  intro ks
  induction ks with
  | nil => intro k; simp [compareLoop]
  | cons a as ih =>
    intro k
    simp [compareLoop, List.mem_append, ih, List.exists_mem_cons_iff]

theorem mem_compareLoop_snd (r t : ArbData) (tk : List String) (lc : String) :
    ∀ (ks : List String) (k : String),
      k ∈ (compareLoop r t tk lc ks).2.1 ↔
        ∃ k0 ∈ ks, k ∈ (compareKey r t tk lc k0).2.1 := by
  intro ks
  induction ks with
  | nil => intro k; simp [compareLoop]
  | cons a as ih =>
    intro k
    simp [compareLoop, List.mem_append, ih, List.exists_mem_cons_iff]

theorem mem_compareLoop_issues (r t : ArbData) (tk : List String) (lc : String) :
    ∀ (ks : List String) (i : ParamIssue),
      i ∈ (compareLoop r t tk lc ks).2.2 ↔
        ∃ k0 ∈ ks, i ∈ (compareKey r t tk lc k0).2.2 := by
  intro ks
  induction ks with
  | nil => intro i; simp [compareLoop]
  | cons a as ih =>
    intro i
    simp [compareLoop, List.mem_append, ih, List.exists_mem_cons_iff]

/-! What each key's contribution can contain. -/

theorem compareKey_fst_mem {r t : ArbData} {tk : List String} {lc k0 k : String}
    (h : k ∈ (compareKey r t tk lc k0).1) :
    k = k0 ∧ ∃ rv tv : String,
      r.lookup k0 = some (ArbValue.str rv) ∧
      t.lookup k0 = some (ArbValue.str tv) ∧ pyStrip tv = "" := by
  unfold compareKey at h
  by_cases hm : k0 ∉ tk
  · rw [if_pos hm] at h
    simp at h
  · rw [if_neg hm] at h
    split at h
    · rename_i rv0 tv0 hr ht
      by_cases he : pyStrip tv0 = ""
      · rw [if_pos he] at h
        simp at h
        exact ⟨h, rv0, tv0, hr, ht, he⟩
      · rw [if_neg he] at h
        simp at h
    · simp at h

theorem compareKey_snd_mem {r t : ArbData} {tk : List String} {lc k0 k : String}
    (h : k ∈ (compareKey r t tk lc k0).2.1) :
    k = k0 ∧ ∃ rv tv : String,
      r.lookup k0 = some (ArbValue.str rv) ∧
      t.lookup k0 = some (ArbValue.str tv) ∧
      pyStrip tv ≠ "" ∧ pyStrip rv = pyStrip tv := by
  unfold compareKey at h
  by_cases hm : k0 ∉ tk
  · rw [if_pos hm] at h
    simp at h
  · rw [if_neg hm] at h
    split at h
    · rename_i rv0 tv0 hr ht
      by_cases he : pyStrip tv0 ≠ "" ∧ pyStrip rv0 = pyStrip tv0
      · rw [if_pos he] at h
        simp at h
        exact ⟨h, rv0, tv0, hr, ht, he⟩
      · rw [if_neg he] at h
        simp at h
    · simp at h

theorem compareKey_issues_mem {r t : ArbData} {tk : List String} {lc k0 : String}
    {i : ParamIssue} (h : i ∈ (compareKey r t tk lc k0).2.2) :
    ∃ rv tv : String,
      r.lookup k0 = some (ArbValue.str rv) ∧
      t.lookup k0 = some (ArbValue.str tv) ∧
      i ∈ mkIssue k0 (pyStrip rv) (pyStrip tv) lc := by
  unfold compareKey at h
  by_cases hm : k0 ∉ tk
  · rw [if_pos hm] at h
    simp at h
  · rw [if_neg hm] at h
    split at h
    · rename_i rv0 tv0 hr ht
      exact ⟨rv0, tv0, hr, ht, h⟩
    · simp at h

theorem mkIssue_mem {key rv tv lc : String} {i : ParamIssue}
    (h : i ∈ mkIssue key rv tv lc) :
    i = ⟨key, rv, tv, paramDiff (extract_params rv) (extract_params tv),
         paramDiff (extract_params tv) (extract_params rv),
         check_text_issues rv tv lc⟩ ∧
    (paramDiff (extract_params rv) (extract_params tv) ≠ [] ∨
     paramDiff (extract_params tv) (extract_params rv) ≠ [] ∨
     check_text_issues rv tv lc ≠ []) := by
  simp only [mkIssue] at h
  split at h
  · rename_i hcond
    simp at h
    exact ⟨h, hcond⟩
  · simp at h

/-! Small shared helpers. -/

theorem contains_eq_false_of_not_mem {α : Type} [BEq α] [LawfulBEq α]
    {l : List α} {a : α} (h : a ∉ l) : l.contains a = false := by
  cases hcon : l.contains a
  · rfl
  · exact absurd (List.elem_iff.mp hcon) h

theorem paramDiff_self (l : List String) : paramDiff l l = [] := by
  simp [paramDiff, List.filter_eq_nil_iff]

theorem check_text_issues_self (s c : String) : check_text_issues s s c = [] := by
  simp [check_text_issues, Bool.and_not_self, Bool.not_and_self]

theorem filteredKeys_no_at {d : ArbData} {k : String} (h : k ∈ filteredKeys d) :
    (!(strStartsWith k "@")) = true := (List.mem_filter.mp h).2

theorem lookupLang_eq_find (ln : String) :
    ∀ m : List (String × String),
      lookupLang ln m = (m.find? fun p => containsSubstr ln p.1).map Prod.snd := by
  intro m
  induction m with
  | nil => rfl
  | cons p rest ih =>
    obtain ⟨lang, code⟩ := p
    by_cases h : containsSubstr ln lang = true
    · rw [lookupLang, if_pos h]
      simp [List.find?, h]
    · rw [lookupLang, if_neg h]
      rw [show List.find? (fun p => containsSubstr ln p.1) ((lang, code) :: rest) =
            List.find? (fun p => containsSubstr ln p.1) rest by simp [List.find?, h]]
      exact ih

/-! The claims. -/

/-- Claim C1, counterexample: for reference x mapped to the empty string,
target x mapped to the empty string and target file name es.arb, the report
does not satisfy emptyTranslations = [x] together with langCode = es,
because no entry of the language table occurs in the file name and the
language code therefore falls back to unknown. -/
theorem scenarioB_langCode_not_es :
    ¬ ((compare_arb_files [("x", ArbValue.str "")] [("x", ArbValue.str "")]
        "es.arb").emptyTranslations = ["x"] ∧
       (compare_arb_files [("x", ArbValue.str "")] [("x", ArbValue.str "")]
        "es.arb").langCode = "es") := by
  decide

/-- Claim C1, amended: for reference x mapped to the empty string, target x
mapped to the empty string and target file name es.arb, compare returns a
report whose emptyTranslations equals [x] and whose langCode equals
unknown. -/
theorem scenarioB_empty_x_langCode_unknown :
    (compare_arb_files [("x", ArbValue.str "")] [("x", ArbValue.str "")]
      "es.arb").emptyTranslations = ["x"] ∧
    (compare_arb_files [("x", ArbValue.str "")] [("x", ArbValue.str "")]
      "es.arb").langCode = "unknown" := by
  decide

/-- Claim C2, counterexample: with reference value Done., target value Done
and target file name ja.arb, the report does contain a missing_end_dot
issue for that key, because the name ja.arb matches no entry of the
language table, so the detected code is unknown and the Japanese exemption
does not fire. -/
theorem ja_arb_missing_end_dot_reported :
    ∃ i ∈ (compare_arb_files [("k", ArbValue.str "Done.")]
        [("k", ArbValue.str "Done")] "ja.arb").parameterIssues,
      i.key = "k" ∧ "missing_end_dot" ∈ i.textIssues := by
  decide

/-- Claim C2, amended: for a reference mapping whose value at some key is
Done. and a target mapping whose value at that key is Done, with a target
file name such as japanese.arb that detects as ja, the returned report's
parameterIssues contain no missing_end_dot entry for that key. -/
theorem japanese_name_no_missing_end_dot (r t : ArbData) (key : String)
    (hr : r.lookup key = some (ArbValue.str "Done."))
    (ht : t.lookup key = some (ArbValue.str "Done")) :
    ((compare_arb_files r t "japanese.arb").parameterIssues.all fun i =>
      !(i.key == key) || !(i.textIssues.contains "missing_end_dot")) = true := by
  rw [List.all_eq_true]
  intro i hi
  have hi' : i ∈ (compareLoop r t (filteredKeys t) (langCodeOf "japanese.arb")
      (filteredKeys r)).2.2 := hi
  rw [mem_compareLoop_issues] at hi'
  obtain ⟨k0, hk0, hik⟩ := hi'
  obtain ⟨rv, tv, hr0, ht0, hmk⟩ := compareKey_issues_mem hik
  obtain ⟨hieq, hcond⟩ := mkIssue_mem hmk
  by_cases hk : i.key = key
  · have hk0eq : k0 = key := by rw [hieq] at hk; exact hk
    subst hk0eq
    rw [hr, Option.some_inj] at hr0
    injection hr0 with hrv
    subst hrv
    rw [ht, Option.some_inj] at ht0
    injection ht0 with htv
    subst htv
    exact absurd hcond (by decide)
  · simp [beq_iff_eq, hk]

/-- Claim C2, witness: the amended theorem applied to one-entry mappings
with values Done. and Done under key k and file name japanese.arb. -/
theorem japanese_name_no_missing_end_dot_witness :
    ((compare_arb_files [("k", ArbValue.str "Done.")]
        [("k", ArbValue.str "Done")] "japanese.arb").parameterIssues.all fun i =>
      !(i.key == "k") || !(i.textIssues.contains "missing_end_dot")) = true :=
  japanese_name_no_missing_end_dot [("k", ArbValue.str "Done.")]
    [("k", ArbValue.str "Done")] "k" (by decide) (by decide)

/-- Claim C3: for every pair of mappings and every target file name, no
issue record of the returned report's parameterIssues has a textIssues list
containing missing_start_space, missing_end_space, missing_start_line_break
or missing_end_line_break, because both values are whitespace-trimmed
before the text issue checks run. -/
theorem report_has_no_whitespace_issue_codes (r t : ArbData) (name : String) :
    ((compare_arb_files r t name).parameterIssues.all fun i =>
      !(i.textIssues.contains "missing_start_space") &&
      !(i.textIssues.contains "missing_end_space") &&
      !(i.textIssues.contains "missing_start_line_break") &&
      !(i.textIssues.contains "missing_end_line_break")) = true := by
  rw [List.all_eq_true]
  intro i hi
  have hi' : i ∈ (compareLoop r t (filteredKeys t) (langCodeOf name)
      (filteredKeys r)).2.2 := hi
  rw [mem_compareLoop_issues] at hi'
  obtain ⟨k0, hk0, hik⟩ := hi'
  obtain ⟨rv, tv, hr0, ht0, hmk⟩ := compareKey_issues_mem hik
  obtain ⟨hieq, hcond⟩ := mkIssue_mem hmk
  have h1 := ws_codes_not_in_check_strip rv tv (langCodeOf name)
    "missing_start_space" (Or.inl rfl)
  have h2 := ws_codes_not_in_check_strip rv tv (langCodeOf name)
    "missing_end_space" (Or.inr (Or.inl rfl))
  have h3 := ws_codes_not_in_check_strip rv tv (langCodeOf name)
    "missing_start_line_break" (Or.inr (Or.inr (Or.inl rfl)))
  have h4 := ws_codes_not_in_check_strip rv tv (langCodeOf name)
    "missing_end_line_break" (Or.inr (Or.inr (Or.inr rfl)))
  rw [hieq]
  simp
  exact ⟨⟨⟨h1, h2⟩, h3⟩, h4⟩

/-- Claim C4: detect_language_code lower-cases the file name and returns
the code of the first entry of the fixed table whose name occurs as a
substring, none when no name matches; the table is exactly the enumerated
one, and in particular the file name french_file.arb detects as fr while a
file name matching no entry detects as none. -/
theorem detect_language_code_first_substring_match :
    (∀ fn : String, detect_language_code fn =
      (language_map.find? fun p => containsSubstr (strToLower fn) p.1).map
        Prod.snd) ∧
    language_map = [("dutch", "nl"), ("german", "de"), ("italian", "it"),
      ("japanese", "ja"), ("korean", "ko"), ("polish", "pl"),
      ("portuguese", "pt"), ("russian", "ru"), ("spanish", "es"),
      ("turkish", "tr"), ("french", "fr"), ("fr", "fr"), ("english", "en")] ∧
    detect_language_code "french_file.arb" = some "fr" ∧
    detect_language_code "nothing.arb" = none :=
  ⟨fun fn => lookupLang_eq_find (strToLower fn) language_map, rfl,
   by decide, by decide⟩

theorem mem_ite_nil {c : Prop} [Decidable c] {x y : String}
    (h : x ∈ (if c then [y] else ([] : List String))) : c ∧ x = y := by
  split at h
  · rename_i hc
    exact ⟨hc, by simpa using h⟩
  · simp at h

theorem missing_end_dot_mem {s t c : String}
    (h : "missing_end_dot" ∈ check_text_issues s t c) :
    c ≠ "ja" ∧ (strEndsWith s "." && !(strEndsWith t ".")) = true := by
  unfold check_text_issues at h
  simp only [List.mem_append] at h
  rcases h with ((((h | h) | h) | h) | h) | h
  · exact absurd (mem_ite_nil h).2 (by decide)
  · exact absurd (mem_ite_nil h).2 (by decide)
  · exact absurd (mem_ite_nil h).2 (by decide)
  · exact absurd (mem_ite_nil h).2 (by decide)
  · exact absurd (mem_ite_nil h).2 (by decide)
  · split at h
    · rename_i hc
      split at h
      · rename_i hcond
        exact ⟨hc, hcond⟩
      · split at h
        · simp at h
        · simp at h
    · simp at h

theorem extra_end_dot_mem {s t c : String}
    (h : "extra_end_dot" ∈ check_text_issues s t c) :
    c ≠ "ja" ∧ (!(strEndsWith s ".") && strEndsWith t ".") = true := by
  unfold check_text_issues at h
  simp only [List.mem_append] at h
  rcases h with ((((h | h) | h) | h) | h) | h
  · exact absurd (mem_ite_nil h).2 (by decide)
  · exact absurd (mem_ite_nil h).2 (by decide)
  · exact absurd (mem_ite_nil h).2 (by decide)
  · exact absurd (mem_ite_nil h).2 (by decide)
  · exact absurd (mem_ite_nil h).2 (by decide)
  · split at h
    · rename_i hc
      split at h
      · simp at h
      · split at h
        · rename_i hcond
          exact ⟨hc, hcond⟩
        · simp at h
    · simp at h

/-- Claim C5: for every source, target and language code, the sequence
returned by check_text_issues contains at most one of missing_end_dot and
extra_end_dot, and contains neither when the language code is ja. -/
theorem check_text_issues_dot_codes_exclusive (s t c : String) :
    (((check_text_issues s t c).contains "missing_end_dot") &&
     ((check_text_issues s t c).contains "extra_end_dot")) = false ∧
    (check_text_issues s t "ja").contains "missing_end_dot" = false ∧
    (check_text_issues s t "ja").contains "extra_end_dot" = false := by
  refine ⟨?_, ?_, ?_⟩
  · cases hm : (check_text_issues s t c).contains "missing_end_dot"
    · simp
    · cases he : (check_text_issues s t c).contains "extra_end_dot"
      · simp
      · exfalso
        obtain ⟨_, ha⟩ := missing_end_dot_mem (List.elem_iff.mp hm)
        obtain ⟨_, hb⟩ := extra_end_dot_mem (List.elem_iff.mp he)
        rw [Bool.and_eq_true] at ha hb
        rw [ha.1] at hb
        simp at hb
  · cases hm : (check_text_issues s t "ja").contains "missing_end_dot"
    · rfl
    · obtain ⟨hc, _⟩ := missing_end_dot_mem (List.elem_iff.mp hm)
      exact absurd rfl hc
  · cases he : (check_text_issues s t "ja").contains "extra_end_dot"
    · rfl
    · obtain ⟨hc, _⟩ := extra_end_dot_mem (List.elem_iff.mp he)
      exact absurd rfl hc

/-- Claim C6: for every pair of mappings and every target file name, no key
appears in both the emptyTranslations and the identicalTranslations lists
of the returned report, because emptiness of the trimmed target is checked
first and excludes the identical check. -/
theorem empty_and_identical_disjoint (r t : ArbData) (name : String) :
    ((compare_arb_files r t name).emptyTranslations.all fun k =>
      decide (k ∉ (compare_arb_files r t name).identicalTranslations)) = true := by
  rw [List.all_eq_true]
  intro k hk
  rw [decide_eq_true_eq]
  intro hk2
  have h1 : k ∈ (compareLoop r t (filteredKeys t) (langCodeOf name)
      (filteredKeys r)).1 := hk
  have h2 : k ∈ (compareLoop r t (filteredKeys t) (langCodeOf name)
      (filteredKeys r)).2.1 := hk2
  rw [mem_compareLoop_fst] at h1
  rw [mem_compareLoop_snd] at h2
  obtain ⟨k1, _, hc1⟩ := h1
  obtain ⟨k2, _, hc2⟩ := h2
  obtain ⟨hke1, rv1, tv1, hr1, ht1, he1⟩ := compareKey_fst_mem hc1
  obtain ⟨hke2, rv2, tv2, hr2, ht2, hne2, _⟩ := compareKey_snd_mem hc2
  subst hke1
  subst hke2
  rw [ht1, Option.some_inj] at ht2
  injection ht2 with htv
  subst htv
  exact hne2 he1

/-- Claim C7: for every pair of mappings and every target file name, the
missingKeys and extraKeys lists of the returned report share no key. -/
theorem missing_and_extra_disjoint (r t : ArbData) (name : String) :
    ((compare_arb_files r t name).missingKeys.all fun k =>
      decide (k ∉ (compare_arb_files r t name).extraKeys)) = true := by
  rw [List.all_eq_true]
  intro k hk
  rw [decide_eq_true_eq]
  intro hk2
  have h1 : k ∈ (filteredKeys r).filter (fun k => decide (k ∉ filteredKeys t)) := hk
  have h2 : k ∈ (filteredKeys t).filter (fun k => decide (k ∉ filteredKeys r)) := hk2
  rw [List.mem_filter, decide_eq_true_eq] at h1 h2
  exact h2.2 h1.1

/-- Claim C8: a key present in both mappings whose looked-up value on either
side is not a string is skipped: compare returns a report in which the key
is in none of emptyTranslations, identicalTranslations, or the keys of
parameterIssues. -/
theorem nonstring_value_key_skipped (r t : ArbData) (name key : String)
    (vr vt : ArbValue) (hr : r.lookup key = some vr) (ht : t.lookup key = some vt)
    (hns : vr.isStr = false ∨ vt.isStr = false) :
    key ∉ (compare_arb_files r t name).emptyTranslations ∧
    key ∉ (compare_arb_files r t name).identicalTranslations ∧
    ((compare_arb_files r t name).parameterIssues.all fun i =>
      !(i.key == key)) = true := by
  have hstr : ∀ rv tv : String, r.lookup key = some (ArbValue.str rv) →
      t.lookup key = some (ArbValue.str tv) → False := by
    intro rv tv hr0 ht0
    rw [hr, Option.some_inj] at hr0
    rw [ht, Option.some_inj] at ht0
    rcases hns with hns | hns
    · rw [hr0] at hns
      simp [ArbValue.isStr] at hns
    · rw [ht0] at hns
      simp [ArbValue.isStr] at hns
  refine ⟨?_, ?_, ?_⟩
  · intro hk
    have h1 : key ∈ (compareLoop r t (filteredKeys t) (langCodeOf name)
        (filteredKeys r)).1 := hk
    rw [mem_compareLoop_fst] at h1
    obtain ⟨k1, _, hc1⟩ := h1
    obtain ⟨hke, rv, tv, hr0, ht0, _⟩ := compareKey_fst_mem hc1
    subst hke
    exact hstr rv tv hr0 ht0
  · intro hk
    have h1 : key ∈ (compareLoop r t (filteredKeys t) (langCodeOf name)
        (filteredKeys r)).2.1 := hk
    rw [mem_compareLoop_snd] at h1
    obtain ⟨k1, _, hc1⟩ := h1
    obtain ⟨hke, rv, tv, hr0, ht0, _, _⟩ := compareKey_snd_mem hc1
    subst hke
    exact hstr rv tv hr0 ht0
  · rw [List.all_eq_true]
    intro i hi
    have hi' : i ∈ (compareLoop r t (filteredKeys t) (langCodeOf name)
        (filteredKeys r)).2.2 := hi
    rw [mem_compareLoop_issues] at hi'
    obtain ⟨k0, _, hik⟩ := hi'
    obtain ⟨rv, tv, hr0, ht0, hmk⟩ := compareKey_issues_mem hik
    obtain ⟨hieq, _⟩ := mkIssue_mem hmk
    by_cases hkk : i.key = key
    · exfalso
      have hk0 : k0 = key := by rw [hieq] at hkk; exact hkk
      subst hk0
      exact hstr rv tv hr0 ht0
    · simp [beq_iff_eq, hkk]

/-- Claim C8, witness: the theorem applied to mappings holding the
non-string value 123 under key n on both sides. -/
theorem nonstring_value_key_skipped_witness :
    "n" ∉ (compare_arb_files [("n", ArbValue.num 123)] [("n", ArbValue.num 123)]
        "target.arb").emptyTranslations ∧
    "n" ∉ (compare_arb_files [("n", ArbValue.num 123)] [("n", ArbValue.num 123)]
        "target.arb").identicalTranslations ∧
    ((compare_arb_files [("n", ArbValue.num 123)] [("n", ArbValue.num 123)]
        "target.arb").parameterIssues.all fun i => !(i.key == "n")) = true :=
  nonstring_value_key_skipped [("n", ArbValue.num 123)] [("n", ArbValue.num 123)]
    "target.arb" "n" (ArbValue.num 123) (ArbValue.num 123) (by decide) (by decide)
    (Or.inl (by decide))

/-- Claim C9: for every pair of mappings and every target file name, no key
beginning with the at sign appears anywhere in the returned report. -/
theorem metadata_keys_excluded_from_report (r t : ArbData) (name : String) :
    ((compare_arb_files r t name).missingKeys.all fun k =>
      !(strStartsWith k "@")) = true ∧
    ((compare_arb_files r t name).extraKeys.all fun k =>
      !(strStartsWith k "@")) = true ∧
    ((compare_arb_files r t name).emptyTranslations.all fun k =>
      !(strStartsWith k "@")) = true ∧
    ((compare_arb_files r t name).identicalTranslations.all fun k =>
      !(strStartsWith k "@")) = true ∧
    ((compare_arb_files r t name).parameterIssues.all fun i =>
      !(strStartsWith i.key "@")) = true := by
  refine ⟨?_, ?_, ?_, ?_, ?_⟩ <;> rw [List.all_eq_true]
  · intro k hk
    exact filteredKeys_no_at (List.mem_filter.mp hk).1
  · intro k hk
    exact filteredKeys_no_at (List.mem_filter.mp hk).1
  · intro k hk
    have h1 : k ∈ (compareLoop r t (filteredKeys t) (langCodeOf name)
        (filteredKeys r)).1 := hk
    rw [mem_compareLoop_fst] at h1
    obtain ⟨k1, hk1, hc1⟩ := h1
    obtain ⟨hke, _, _, _, _, _⟩ := compareKey_fst_mem hc1
    subst hke
    exact filteredKeys_no_at hk1
  · intro k hk
    have h1 : k ∈ (compareLoop r t (filteredKeys t) (langCodeOf name)
        (filteredKeys r)).2.1 := hk
    rw [mem_compareLoop_snd] at h1
    obtain ⟨k1, hk1, hc1⟩ := h1
    obtain ⟨hke, _, _, _, _, _, _⟩ := compareKey_snd_mem hc1
    subst hke
    exact filteredKeys_no_at hk1
  · intro i hi
    have hi' : i ∈ (compareLoop r t (filteredKeys t) (langCodeOf name)
        (filteredKeys r)).2.2 := hi
    rw [mem_compareLoop_issues] at hi'
    obtain ⟨k0, hk0, hik⟩ := hi'
    obtain ⟨rv, tv, _, _, hmk⟩ := compareKey_issues_mem hik
    obtain ⟨hieq, _⟩ := mkIssue_mem hmk
    rw [hieq]
    exact filteredKeys_no_at hk0

/-- Claim C10: comparing a string with itself yields no text issues, and a
key recorded under identicalTranslations never produces an issue record in
parameterIssues, since equal trimmed values also yield equal placeholder
sets. -/
theorem identical_translations_produce_no_issues :
    (∀ s c : String, check_text_issues s s c = []) ∧
    ∀ (r t : ArbData) (name : String),
      ((compare_arb_files r t name).identicalTranslations.all fun k =>
        (compare_arb_files r t name).parameterIssues.all fun i =>
          !(i.key == k)) = true := by
  refine ⟨check_text_issues_self, ?_⟩
  intro r t name
  rw [List.all_eq_true]
  intro k hk
  rw [List.all_eq_true]
  intro i hi
  have hk' : k ∈ (compareLoop r t (filteredKeys t) (langCodeOf name)
      (filteredKeys r)).2.1 := hk
  rw [mem_compareLoop_snd] at hk'
  obtain ⟨k1, _, hc1⟩ := hk'
  obtain ⟨hke, rv1, tv1, hr1, ht1, hne1, heq1⟩ := compareKey_snd_mem hc1
  subst hke
  have hi' : i ∈ (compareLoop r t (filteredKeys t) (langCodeOf name)
      (filteredKeys r)).2.2 := hi
  rw [mem_compareLoop_issues] at hi'
  obtain ⟨k2, _, hc2⟩ := hi'
  obtain ⟨rv2, tv2, hr2, ht2, hmk⟩ := compareKey_issues_mem hc2
  obtain ⟨hieq, hcond⟩ := mkIssue_mem hmk
  by_cases hkk : i.key = k
  · exfalso
    have hk2 : k2 = k := by rw [hieq] at hkk; exact hkk
    subst hk2
    rw [hr1, Option.some_inj] at hr2
    injection hr2 with hrv
    subst hrv
    rw [ht1, Option.some_inj] at ht2
    injection ht2 with htv
    subst htv
    rw [heq1] at hcond
    simp [paramDiff_self, check_text_issues_self] at hcond
  · simp [beq_iff_eq, hkk]

